import Mathlib

/-!
Verification of the `missav_postprocess` batch-transcription pipeline
(`src/main.py`, `src/video2srt.py`) via a shallow embedding in Lean.

Conventions of the embedding:
* Python `float` seconds are modelled as `ℚ`; every concrete input used in a
  theorem is exactly representable in binary floating point, so the rational
  model coincides with the float semantics there.
* Python `int()` truncates toward zero (`pyTrunc`); Python `//` and `%` on
  integers are floor division and floor modulus (`Int.fdiv`, `Int.fmod`).
* The filesystem is a finite map `String → Option String` (path → contents);
  external collaborators (ffmpeg, faster-whisper, the summarizer) are oracles
  supplied through environment records, and the observable calls made to them
  are recorded in an event trace.
* Python `str.strip()` is modelled over the ASCII whitespace characters
  (space, tab, newline, carriage return, vertical tab, form feed); the inputs
  of every claim stay inside this fragment.
-/

namespace MissAV

/-! ## Python primitives -/

/-- Python `int(x)` on a real value: truncation toward zero. -/
def pyTrunc (q : ℚ) : ℤ := if 0 ≤ q then ⌊q⌋ else -⌊-q⌋

/-- Zero padding of a nonnegative integer to width `w`,
as Python's format spec `{n:0wd}` does for nonnegative `n`. -/
def padZ (w : Nat) (n : ℤ) : String :=
  let s := toString n
  ⟨List.replicate (w - s.data.length) '0' ++ s.data⟩

/-- Python's whitespace set for `str.strip()`, restricted to ASCII. -/
def isPySpace (c : Char) : Bool :=
  c = ' ' || c = '\t' || c = '\n' || c = '\r' || c = '\x0b' || c = '\x0c'

/-- Strip whitespace from both ends of a character list (`str.strip()`). -/
def stripChars (l : List Char) : List Char :=
  ((l.dropWhile isPySpace).reverse.dropWhile isPySpace).reverse

/-- Python `line.strip()`. -/
def stripStr (s : String) : String := ⟨stripChars s.data⟩

/-- Python `content.split('\n')` on character lists:
accumulates the current field (reversed) and cuts at every newline. -/
def splitNlAux : List Char → List Char → List (List Char)
  | [], cur => [cur.reverse]
  | c :: rest, cur =>
    if c = '\n' then cur.reverse :: splitNlAux rest []
    else splitNlAux rest (c :: cur)

/-- Python `content.split('\n')`. -/
def pySplitNl (s : String) : List String :=
  (splitNlAux s.data []).map fun l => ⟨l⟩

/-- UTF-8 byte size of a string, Python `len(line.encode('utf-8'))`. -/
def utf8Len (s : String) : Nat := (s.data.map Char.utf8Size).sum

/-- Python `'\n'.join(lines)`. -/
def joinLines : List String → String
  | [] => ""
  | [s] => s
  | s :: rest => s ++ "\n" ++ joinLines rest

/-- CPython `os.path.splitext`: split off the extension at the last dot of
the basename, unless every character before it in the basename is a dot. -/
def splitExt (p : String) : String × String :=
  let l := p.data
  let sep : ℤ := match (l.reverse.indexOf? '/') with
    | none => -1
    | some i => (l.length : ℤ) - 1 - i
  let dot : ℤ := match (l.reverse.indexOf? '.') with
    | none => -1
    | some i => (l.length : ℤ) - 1 - i
  if dot > sep then
    let fstart := (sep + 1).toNat
    if ((l.drop fstart).take (dot.toNat - fstart)).any (fun c => c ≠ '.') then
      (⟨l.take dot.toNat⟩, ⟨l.drop dot.toNat⟩)
    else (p, "")
  else (p, "")

/-- `os.path.splitext(p)[0]`. -/
def stemOf (p : String) : String := (splitExt p).1

/-- `os.path.splitext(p)[1]`. -/
def extOf (p : String) : String := (splitExt p).2

/-- Python `s.lower()` (ASCII fragment, enough for extension dispatch). -/
def toLowerStr (s : String) : String := ⟨s.data.map Char.toLower⟩

/-! ## Timestamp formatting (`format_time`) -/

/-- `format_time` of `src/main.py` (lines 61-66):
`milliseconds = int(t*1000) % 1000`, `seconds = int(t) % 60`,
`minutes = int(t) // 60 % 60`, `hours = int(t) // 3600`,
rendered as `HH:MM:SS,mmm` with zero padding. -/
def formatTime (t : ℚ) : String :=
  let milliseconds := Int.fmod (pyTrunc (t * 1000)) 1000
  let seconds := Int.fmod (pyTrunc t) 60
  let minutes := Int.fmod (Int.fdiv (pyTrunc t) 60) 60
  let hours := Int.fdiv (pyTrunc t) 3600
  padZ 2 hours ++ ":" ++ padZ 2 minutes ++ ":" ++ padZ 2 seconds ++ "," ++
    padZ 3 milliseconds

/-- `format_time` of `src/video2srt.py` (lines 15-20).  The Python code
reassigns `seconds = int(seconds) % 60` and only afterwards computes
`minutes = int(seconds / 60) % 60` and `hours = int(seconds / 3600)` from the
reassigned value, so `/` is float true division of the reduced seconds. -/
def formatTimeV2S (t : ℚ) : String :=
  let milliseconds := Int.fmod (pyTrunc (t * 1000)) 1000
  let seconds := Int.fmod (pyTrunc t) 60
  let minutes := Int.fmod (pyTrunc ((seconds : ℚ) / 60)) 60
  let hours := pyTrunc ((seconds : ℚ) / 3600)
  padZ 2 hours ++ ":" ++ padZ 2 minutes ++ ":" ++ padZ 2 seconds ++ "," ++
    padZ 3 milliseconds

/-! ## The text chunker of `do_summary` (`src/main.py` lines 136-158) -/

/-- The character set of the line filter:
`all(c in ' 0123456789.:,->-' for c in line)`. -/
def filterChars : List Char := " 0123456789.:,->-".data

/-- `MAX_BLOCK_SIZE = 64 * 1024`. -/
def MAX_BLOCK_SIZE : Nat := 64 * 1024

/-- The loop state of the chunking loop: emitted blocks (kept as line lists;
the code joins a block with `'\n'` at append time, which `joinLines ∘`
mapping recovers), the current block, and `current_size`. -/
structure ChunkState where
  blocks : List (List String)
  current : List String
  size : Nat
deriving Repr

/-- One iteration of `for line in content.split('\n')`: strip, skip lines
made only of filter characters, then either flush the current block and
start a new one, or append to the current block. -/
def chunkStep (st : ChunkState) (line : String) : ChunkState :=
  let line := stripStr line
  if line.data.all (fun c => filterChars.contains c) then st
  else
    let lineSize := utf8Len line
    if st.size + lineSize > MAX_BLOCK_SIZE ∧ st.current ≠ [] then
      { blocks := st.blocks ++ [st.current], current := [line], size := lineSize }
    else
      { blocks := st.blocks, current := st.current ++ [line],
        size := st.size + lineSize }

/-- The chunking loop over a list of lines, including the final
`if current_block: blocks.append(...)`. -/
def chunkLines (lines : List String) : List (List String) :=
  let st := lines.foldl chunkStep ⟨[], [], 0⟩
  if st.current ≠ [] then st.blocks ++ [st.current] else st.blocks

/-- The blocks exactly as the Python code builds them: strings joined with
`'\n'`, from the lines of `content.split('\n')`. -/
def blocksOf (content : String) : List String :=
  (chunkLines (pySplitNl content)).map joinLines

/-- The filter stage alone: the lines that survive
(the stripped text of every line not made only of filter characters). -/
def filteredLines (lines : List String) : List String :=
  lines.filterMap fun l =>
    let s := stripStr l
    if s.data.all (fun c => filterChars.contains c) then none else some s

/-- Sum of the UTF-8 byte sizes of the lines of a block
(the quantity tracked by `current_size`). -/
def sumBytes (b : List String) : Nat := (b.map utf8Len).sum

/-- A block as the spec's size bound allows it: either the accumulated line
sizes stay within `MAX_BLOCK_SIZE`, or the block is one single oversized
line. -/
def goodBlock (B : List String) : Prop :=
  sumBytes B ≤ MAX_BLOCK_SIZE ∨ ∃ l, B = [l] ∧ utf8Len l > MAX_BLOCK_SIZE

/-- Invariant of the chunking loop: emitted blocks are good, `current_size`
is the byte sum of the current block, and the current block is good. -/
def ChunkInv (st : ChunkState) : Prop :=
  (∀ B ∈ st.blocks, goodBlock B) ∧ st.size = sumBytes st.current ∧
    goodBlock st.current

/-- The lines represented by a loop state: all emitted blocks followed by the
current block. -/
def chunkJoined (st : ChunkState) : List String := st.blocks.flatten ++ st.current

/-! ## Filesystem, events, and artifact paths -/

/-- The filesystem: a map from path to file contents. -/
abbrev FS : Type := String → Option String

/-- Write (create or overwrite) a file. -/
def FS.set (fs : FS) (p c : String) : FS := fun q => if q = p then some c else fs q

/-- `os.unlink` / `os.remove`. -/
def FS.del (fs : FS) (p : String) : FS := fun q => if q = p then none else fs q

/-- `os.path.exists`. -/
def FS.exists? (fs : FS) (p : String) : Bool := (fs p).isSome

/-- The empty filesystem. -/
def fsEmpty : FS := fun _ => none

/-- A transcription segment as the transcriber yields it: start and end
seconds plus text (`end` is a Lean keyword, so the field is `stop`). -/
structure Segment where
  start : ℚ
  stop : ℚ
  text : String

/-- Observable events of a run: the calls made to external collaborators and
the progress/error log lines of the batch loop. -/
inductive Ev
  | extractCall (video audioOut : String)
  | extractErr
  | transcribeCall (audio : String)
  | writeCall (path : String)
  | summarizeCall (block : String)
  | progressStart (i total : Nat) (path : String)
  | progressEnd (i total : Nat) (path : String)
  | errorCaught (path : String)
deriving DecidableEq, Repr

/-- Recognizer for transcription-call events. -/
def Ev.isTranscribe : Ev → Bool
  | .transcribeCall _ => true
  | _ => false

/-- Recognizer for extraction-call events. -/
def Ev.isExtract : Ev → Bool
  | .extractCall _ _ => true
  | _ => false

/-- `os.path.splitext(video_path)[0] + ".srt"` (src/main.py line 80). -/
def srtPath (p : String) : String := stemOf p ++ ".srt"

/-- `os.path.splitext(video_path)[0] + ".temp.wav"` (src/main.py line 87). -/
def tempWavPath (p : String) : String := stemOf p ++ ".temp.wav"

/-- `os.path.splitext(video_path)[0] + ".test.srt"` (src/main.py line 88). -/
def tempSrtPath (p : String) : String := stemOf p ++ ".test.srt"

/-- `os.path.splitext(video_path)[0] + "_summary.txt"` (src/main.py line 125). -/
def summaryPath (p : String) : String := stemOf p ++ "_summary.txt"

/-! ## The transcription job (`do_srt`, src/main.py lines 78-114) -/

/-- The subtitle text written by `convert_to_srt` of `src/main.py`
(lines 59-76): numbered entries, timestamp range, stripped text, blank
line. -/
def renderSrt (segs : List Segment) : String :=
  String.join (segs.enum.map fun is =>
    toString (is.1 + 1) ++ "\n" ++
    formatTime is.2.start ++ " --> " ++ formatTime is.2.stop ++ "\n" ++
    stripStr is.2.text ++ "\n\n")

/-- The subtitle text written by `convert_to_srt` of `src/video2srt.py`
(lines 6-28); it uses that file's own `format_time`. -/
def renderSrtV2S (segs : List Segment) : String :=
  String.join (segs.enum.map fun is =>
    toString (is.1 + 1) ++ "\n" ++
    formatTimeV2S is.2.start ++ " --> " ++ formatTimeV2S is.2.stop ++ "\n" ++
    stripStr is.2.text ++ "\n\n")

/-- Oracle outcomes for one `do_srt` run.  `extract_audio` returning `False`
covers both a non-zero `ffmpeg` exit and a missing binary (both caught inside
`extract_audio`; on failure no output file is produced).  `transcribeRaises`
covers an exception from the `WhisperModel` constructor or from the (lazy)
transcription; `writeRaises` an exception escaping `convert_to_srt`
mid-write, leaving a half-written temporary subtitle file. -/
structure SrtEnv where
  extractOk : Bool
  wav : String
  transcribeRaises : Bool
  segments : List Segment
  writeRaises : Bool
  halfWritten : String

/-- The `finally` block of `do_srt` (lines 107-114): remove each temporary
path if it exists. -/
def srtCleanup (fs : FS) (tw ts : String) : FS :=
  let fs1 := if fs.exists? tw then fs.del tw else fs
  if fs1.exists? ts then fs1.del ts else fs1

/-- The `try` body of `do_srt` (lines 90-104): extraction, transcription,
subtitle writing to the temporary path, then the rename/unlink publish
step.  The trace records the collaborator calls made; exceptions land in
the `except` handler (line 105), which only logs, so the body returns the
filesystem as the exception left it. -/
def doSrtBody (env : SrtEnv) (fs : FS) (p : String) : FS × List Ev :=
  let tw := tempWavPath p
  let ts := tempSrtPath p
  if !env.extractOk then (fs, [.extractCall p tw, .extractErr])
  else
    let fs1 := fs.set tw env.wav
    if env.transcribeRaises then (fs1, [.extractCall p tw, .transcribeCall tw])
    else if env.writeRaises then
      (fs1.set ts env.halfWritten,
        [.extractCall p tw, .transcribeCall tw, .writeCall ts])
    else
      let fs2 := fs1.set ts (renderSrt env.segments)
      let fs3 := (fs2.del ts).set (srtPath p) (renderSrt env.segments)
      (fs3.del tw, [.extractCall p tw, .transcribeCall tw, .writeCall ts])

/-- `do_srt` (lines 78-114): skip when the final subtitle already exists,
otherwise run the body and unconditionally clean up the temporaries. -/
def doSrt (env : SrtEnv) (fs : FS) (p : String) : FS × List Ev :=
  if fs.exists? (srtPath p) then (fs, [])
  else
    let r := doSrtBody env fs p
    (srtCleanup r.1 (tempWavPath p) (tempSrtPath p), r.2)

/-! ## The batch loop (`main`, src/main.py lines 178-189) -/

/-- Per-file oracles of a batch run: the `do_srt` environment for each path,
and whether an exception escapes that file's processing into the batch
`except` handler (nothing inside `do_srt`'s own `try` can, but code outside
it — the guard, path splitting, logging, the `finally` itself — can). -/
structure BatchEnv where
  srtEnv : String → SrtEnv
  jobRaises : String → Bool

/-- The loop of `main` from 0-based index `i` over the remaining snapshot:
progress log, `do_srt`, progress log, with the per-file `except` that logs
the file identity and continues with the next file. -/
def batchGo (env : BatchEnv) (total : Nat) : Nat → FS → List String → FS × List Ev
  | _, fs, [] => (fs, [])
  | i, fs, f :: rest =>
    if env.jobRaises f then
      let r := batchGo env total (i + 1) fs rest
      (r.1, .progressStart (i + 1) total f :: .errorCaught f :: r.2)
    else
      let r1 := doSrt (env.srtEnv f) fs f
      let r := batchGo env total (i + 1) r1.1 rest
      (r.1, .progressStart (i + 1) total f :: r1.2 ++
        .progressEnd (i + 1) total f :: r.2)

/-- The batch loop over a snapshot of discovered files. -/
def batchRun (env : BatchEnv) (fs : FS) (files : List String) : FS × List Ev :=
  batchGo env files.length 0 fs files

/-! ## The single-file pipeline (`src/video2srt.py` lines 47-81) -/

/-- Oracle outcomes for a `video2srt.py` run: whether `ffmpeg` succeeds,
whether the `WhisperModel` constructor raises (this exception is *not*
caught — `transcribe_audio`'s `try` begins after it, and `main` has no
handler), whether transcription raises inside that `try` (caught there,
before any output is written), and the transcription result. -/
structure V2SEnv where
  extractOk : Bool
  wav : String
  ctorRaises : Bool
  innerRaises : Bool
  segments : List Segment

/-- Video extensions routed through `extract_audio` (line 74). -/
def videoExts : List String := [".mp4", ".mkv", ".mov", ".avi"]

/-- Audio extensions transcribed directly (line 78). -/
def audioExts : List String := [".wav", ".mp3", ".ogg", ".flac"]

/-- `transcribe_audio` (lines 47-57) writing to `out`: the boolean is the
Python return value; `none` means the uncaught `WhisperModel` exception
propagated to the caller. -/
def v2sTranscribe (env : V2SEnv) (fs : FS) (out : String) : Option (FS × Bool) :=
  if env.ctorRaises then none
  else if env.innerRaises then some (fs, false)
  else some (fs.set out (renderSrtV2S env.segments), true)

/-- `main` of `src/video2srt.py` (lines 59-81) after argument parsing:
extension dispatch, extraction, transcription, and the temp-audio removal
that only runs when `transcribe_audio` returns normally.  The boolean
reports whether the process crashed with an uncaught exception. -/
def v2sRun (env : V2SEnv) (fs : FS) (input : String) : FS × Bool :=
  let base := stemOf input
  let outSrt := base ++ ".srt"
  let tempAudio := base ++ "_temp_audio.wav"
  if (toLowerStr (extOf input)) ∈ videoExts then
    if env.extractOk then
      let fs1 := fs.set tempAudio env.wav
      match v2sTranscribe env fs1 outSrt with
      | none => (fs1, true)
      | some (fs2, _) => (fs2.del tempAudio, false)
    else (fs, false)
  else if (toLowerStr (extOf input)) ∈ audioExts then
    match v2sTranscribe env fs outSrt with
    | none => (fs, true)
    | some (fs2, _) => (fs2, false)
  else (fs, false)

/-! ## The summary job (`do_summary`, src/main.py lines 116-176) -/

/-- Oracles for one `do_summary` run: whether reading the subtitle file
raises, and the result of each `get_summary` call on a block
(`Except.error` models an exception raised by the summarizer). -/
structure SumEnv where
  readRaises : Bool
  getSummary : String → Except Unit String

/-- The sequential `get_summary` loop over blocks (lines 161-166): stops at
the first raising call; the trace records the calls attempted. -/
def runSummaries (env : SumEnv) : List String → Except Unit (List String) × List Ev
  | [] => (.ok [], [])
  | b :: rest =>
    match env.getSummary b with
    | .error e => (.error e, [.summarizeCall b])
    | .ok s =>
      let r := runSummaries env rest
      (r.1.map fun l => s :: l, .summarizeCall b :: r.2)

/-- `do_summary` (lines 116-176): skip without a subtitle file or with an
existing summary; otherwise read, chunk, summarize each block and write the
summaries joined by `'\n\n'`; any exception is caught by the `except`
(line 175) before the write, leaving the filesystem untouched. -/
def doSummary (env : SumEnv) (fs : FS) (p : String) : FS × List Ev :=
  match fs (srtPath p) with
  | none => (fs, [])
  | some content =>
    if fs.exists? (summaryPath p) then (fs, [])
    else if env.readRaises then (fs, [])
    else
      let r := runSummaries env (blocksOf content)
      match r.1 with
      | .error _ => (fs, r.2)
      | .ok summaries =>
        (fs.set (summaryPath p) (String.intercalate "\n\n" summaries), r.2)

/-! ## The path scanner (`main`, src/main.py line 180) -/

/-- Modelled from the spec: the scan step calls the Python library function
`glob.glob(os.path.join(BASE_DIR, "**/*.mp4"), recursive=True)`, whose code
is not part of this repository.  Per its documented semantics it returns the
list of existing paths matching the pattern and raises no exception; a
nonexistent or unreadable root simply matches nothing.  The filesystem is
given as the list of existing file paths. -/
def scanMp4 (existing : List String) (root : String) : List String :=
  existing.filter fun f =>
    (root ++ "/").data.isPrefixOf f.data && (".mp4" : String).data.isSuffixOf f.data

/-- The scan step with the spec's error channel made explicit: the spec's
`ScanError` would be an `Except.error`; neither `main` nor `glob` has a
failing path, so the result is always `Except.ok`. -/
def scanStep (existing : List String) (root : String) : Except Unit (List String) :=
  .ok (scanMp4 existing root)

/-! ## Concrete instances used in counterexamples and scenarios -/

/-- A 32768-byte line of `'a'` characters. -/
def bigLine : String := ⟨List.replicate 32768 'a'⟩

/-- An input whose first chunk holds two 32768-byte lines: their sizes sum to
exactly `MAX_BLOCK_SIZE`, so the block joined with `'\n'` is 65537 bytes. -/
def chunkCounterexampleContent : String :=
  bigLine ++ "\n" ++ bigLine ++ "\n" ++ "x"

/-- The batch-resilience scenario of the spec: three files, the second one's
audio extraction fails, nothing raises past `do_srt`. -/
def scnBatchEnv : BatchEnv :=
  ⟨fun f => if f = "d/b.mp4" then ⟨false, "WAV", false, [], false, ""⟩
    else ⟨true, "WAV", false, [], false, ""⟩, fun _ => false⟩

/-- The three files of the batch-resilience scenario. -/
def scnFiles : List String := ["d/a.mp4", "d/b.mp4", "d/c.mp4"]

/-! ## Evaluation lemmas for `pyTrunc` -/

lemma pyTrunc_3725_25 : pyTrunc (3725.25 : ℚ) = 3725 := by
  rw [pyTrunc, if_pos (by norm_num)]; norm_num

lemma pyTrunc_3725250 : pyTrunc ((3725.25 : ℚ) * 1000) = 3725250 := by
  rw [pyTrunc, if_pos (by norm_num)]; norm_num

lemma pyTrunc_zero : pyTrunc (0 : ℚ) = 0 := by
  rw [pyTrunc, if_pos (by norm_num)]; norm_num

lemma pyTrunc_zero_mul : pyTrunc ((0 : ℚ) * 1000) = 0 := by
  rw [pyTrunc, if_pos (by norm_num)]; norm_num

lemma pyTrunc_five_div60 : pyTrunc (((5 : ℤ) : ℚ) / 60) = 0 := by
  rw [pyTrunc, if_pos (by norm_num)]; norm_num

lemma pyTrunc_five_div3600 : pyTrunc (((5 : ℤ) : ℚ) / 3600) = 0 := by
  rw [pyTrunc, if_pos (by norm_num)]; norm_num

lemma pyTrunc_zero_div60 : pyTrunc (((0 : ℤ) : ℚ) / 60) = 0 := by
  rw [pyTrunc, if_pos (by norm_num)]; norm_num

lemma pyTrunc_zero_div3600 : pyTrunc (((0 : ℤ) : ℚ) / 3600) = 0 := by
  rw [pyTrunc, if_pos (by norm_num)]; norm_num

/-! ## Chunker: size-bound invariant -/

lemma sumBytes_append (a b : List String) :
    sumBytes (a ++ b) = sumBytes a + sumBytes b := by
  simp [sumBytes, List.map_append, List.sum_append]

lemma sumBytes_singleton (l : String) : sumBytes [l] = utf8Len l := by
  simp [sumBytes]

lemma chunkStep_inv (st : ChunkState) (line : String) (h : ChunkInv st) :
    ChunkInv (chunkStep st line) := by
  obtain ⟨hb, hs, hc⟩ := h
  simp only [chunkStep]
  split
  · exact ⟨hb, hs, hc⟩
  · split
    case isTrue hcond =>
      refine ⟨?_, by simp [sumBytes], ?_⟩
      · intro B hB
        rcases List.mem_append.mp hB with h1 | h2
        · exact hb B h1
        · rw [List.mem_singleton.mp h2]; exact hc
      · by_cases hl : utf8Len (stripStr line) ≤ MAX_BLOCK_SIZE
        · left; simpa [sumBytes] using hl
        · right; exact ⟨stripStr line, rfl, by omega⟩
    case isFalse hcond =>
      refine ⟨hb, by simp [sumBytes_append, sumBytes, hs], ?_⟩
      by_cases hcur : st.current = []
      · rw [hcur]
        by_cases hl : utf8Len (stripStr line) ≤ MAX_BLOCK_SIZE
        · left; simpa [sumBytes] using hl
        · right; exact ⟨stripStr line, rfl, by omega⟩
      · left
        have hle : st.size + utf8Len (stripStr line) ≤ MAX_BLOCK_SIZE := by
          by_contra hgt
          exact hcond ⟨by omega, hcur⟩
        rw [sumBytes_append, sumBytes_singleton, ← hs]
        exact hle

lemma foldl_chunkStep_inv (lines : List String) :
    ∀ st : ChunkState, ChunkInv st → ChunkInv (lines.foldl chunkStep st) := by
  induction lines with
  | nil => intro st h; exact h
  | cons l ls ih =>
    intro st h
    exact ih _ (chunkStep_inv st l h)

lemma chunkLines_goodBlock (lines : List String) :
    ∀ B ∈ chunkLines lines, goodBlock B := by
  have h := foldl_chunkStep_inv lines ⟨[], [], 0⟩
    ⟨fun B hB => absurd hB (List.not_mem_nil B), by simp [sumBytes],
      Or.inl (by simp [sumBytes, MAX_BLOCK_SIZE])⟩
  obtain ⟨hb, _, hc⟩ := h
  intro B hB
  simp only [chunkLines] at hB
  split at hB
  · rcases List.mem_append.mp hB with h1 | h2
    · exact hb B h1
    · rw [List.mem_singleton.mp h2]; exact hc
  · exact hb B hB

lemma utf8Len_append (a b : String) :
    utf8Len (a ++ b) = utf8Len a + utf8Len b := by
  simp [utf8Len, String.data_append, List.map_append, List.sum_append]

lemma joinLines_nil : joinLines [] = "" := rfl

lemma joinLines_single (s : String) : joinLines [s] = s := rfl

lemma joinLines_cons₂ (s t : String) (ts : List String) :
    joinLines (s :: t :: ts) = s ++ "\n" ++ joinLines (t :: ts) := rfl

lemma utf8Len_joinLines (B : List String) :
    utf8Len (joinLines B) ≤ sumBytes B + (B.length - 1) := by
  induction B with
  | nil => simp [joinLines_nil, utf8Len, sumBytes]
  | cons s rest ih =>
    cases rest with
    | nil => simp [joinLines_single, sumBytes]
    | cons t ts =>
      rw [joinLines_cons₂, utf8Len_append, utf8Len_append,
        (by decide : utf8Len "\n" = 1)]
      simp only [sumBytes, List.map_cons, List.sum_cons, List.length_cons] at ih ⊢
      omega

/-! ## Chunker: round trip -/

lemma filteredLines_singleton (l : String) :
    filteredLines [l] =
      if ((stripStr l).data.all fun c => filterChars.contains c) = true
      then [] else [stripStr l] := by
  by_cases hc : ((stripStr l).data.all fun c => filterChars.contains c) = true
  · simp only [filteredLines, List.filterMap_cons, List.filterMap_nil, if_pos hc]
  · simp only [filteredLines, List.filterMap_cons, List.filterMap_nil, if_neg hc]

lemma filteredLines_cons (l : String) (ls : List String) :
    filteredLines (l :: ls) = filteredLines [l] ++ filteredLines ls := by
  by_cases hc : ((stripStr l).data.all fun c => filterChars.contains c) = true
  · simp only [filteredLines, List.filterMap_cons, List.filterMap_nil, if_pos hc]
    rfl
  · simp only [filteredLines, List.filterMap_cons, List.filterMap_nil, if_neg hc]
    rfl

lemma chunkStep_joined (st : ChunkState) (l : String) :
    chunkJoined (chunkStep st l) = chunkJoined st ++ filteredLines [l] := by
  by_cases hf : ((stripStr l).data.all fun c => filterChars.contains c) = true
  · simp only [chunkStep, chunkJoined, filteredLines_singleton, if_pos hf]
    simp
  · by_cases hcond :
      st.size + utf8Len (stripStr l) > MAX_BLOCK_SIZE ∧ st.current ≠ []
    · simp only [chunkStep, chunkJoined, filteredLines_singleton, if_neg hf,
        if_pos hcond]
      simp [List.flatten_append]
    · simp only [chunkStep, chunkJoined, filteredLines_singleton, if_neg hf,
        if_neg hcond]
      simp

lemma foldl_chunkStep_joined (lines : List String) :
    ∀ st : ChunkState,
      chunkJoined (lines.foldl chunkStep st) = chunkJoined st ++ filteredLines lines := by
  induction lines with
  | nil => intro st; simp [filteredLines]
  | cons l ls ih =>
    intro st
    rw [List.foldl_cons, ih, chunkStep_joined, List.append_assoc,
      ← filteredLines_cons]

lemma chunkLines_flatten (lines : List String) :
    (chunkLines lines).flatten = filteredLines lines := by
  have h := foldl_chunkStep_joined lines ⟨[], [], 0⟩
  simp only [chunkJoined, List.flatten_nil, List.nil_append] at h
  simp only [chunkLines]
  split
  case isTrue hne => rw [List.flatten_append]; simpa using h
  case isFalse hne =>
    push_neg at hne
    rw [← h, hne]
    simp

/-! ## Properties of `str.strip()` -/

lemma stripChars_eq_rdrop (l : List Char) :
    stripChars l = List.rdropWhile isPySpace (List.dropWhile isPySpace l) := rfl

lemma dropWhile_stripChars (l : List Char) :
    List.dropWhile isPySpace (stripChars l) = stripChars l := by
  rw [stripChars_eq_rdrop]
  set Y := List.dropWhile isPySpace l with hY
  have hYfix : List.dropWhile isPySpace Y = Y := List.dropWhile_idempotent _ _
  obtain ⟨t, ht⟩ := List.rdropWhile_prefix isPySpace Y
  cases hX : List.rdropWhile isPySpace Y with
  | nil => simp
  | cons a s =>
    rw [hX] at ht
    have hpa : ¬isPySpace a = true := by
      intro hpa
      rw [← ht, List.dropWhile_append] at hYfix
      by_cases hnil : (List.dropWhile isPySpace (a :: s)).isEmpty = true
      · rw [if_pos hnil] at hYfix
        have h1 := congrArg List.length hYfix
        have h2 := (List.dropWhile_sublist (l := t) isPySpace).length_le
        simp at h1
        omega
      · rw [if_neg hnil] at hYfix
        rw [List.dropWhile_cons, if_pos hpa] at hYfix
        have h1 := congrArg List.length hYfix
        have h2 := (List.dropWhile_sublist (l := s) isPySpace).length_le
        simp at h1
        omega
    rw [List.dropWhile_cons, if_neg hpa]

lemma stripChars_idem (l : List Char) :
    stripChars (stripChars l) = stripChars l := by
  rw [stripChars_eq_rdrop (stripChars l), dropWhile_stripChars,
    stripChars_eq_rdrop l, List.rdropWhile_idempotent]

lemma stripChars_sublist (l : List Char) : (stripChars l).Sublist l := by
  rw [stripChars_eq_rdrop]
  exact ((List.rdropWhile_prefix isPySpace _).sublist).trans
    (List.dropWhile_sublist _)

lemma stripStr_data (s : String) : (stripStr s).data = stripChars s.data := rfl

lemma stripStr_idem (s : String) : stripStr (stripStr s) = stripStr s :=
  String.ext (stripChars_idem s.data)

/-! ## Lines skipped by the filter -/

lemma contains_filterChars_iff (c : Char) :
    (filterChars.contains c) = true ↔ c ∈ filterChars := by
  simp [List.contains, List.elem_iff]

lemma allFilter_of_subset {l : List Char} (h : ∀ c ∈ l, c ∈ filterChars) :
    (l.all fun c => filterChars.contains c) = true := by
  rw [List.all_eq_true]
  intro x hx
  rw [contains_filterChars_iff]
  exact h x hx

lemma chunkStep_skip (st : ChunkState) (l : String)
    (h : ∀ c ∈ l.data, c ∈ filterChars) : chunkStep st l = st := by
  have hsub : ∀ c ∈ (stripStr l).data, c ∈ filterChars := by
    intro c hc
    rw [stripStr_data] at hc
    exact h c ((stripChars_sublist l.data).subset hc)
  simp only [chunkStep, if_pos (allFilter_of_subset hsub)]

lemma chunkLines_nil_of_all_filtered (lines : List String)
    (h : ∀ l ∈ lines, ∀ c ∈ l.data, c ∈ filterChars) : chunkLines lines = [] := by
  have hfold : lines.foldl chunkStep ⟨[], [], 0⟩ = ⟨[], [], 0⟩ := by
    induction lines with
    | nil => rfl
    | cons l ls ih =>
      rw [List.foldl_cons, chunkStep_skip _ _ (h l (List.mem_cons_self l ls)),
        ih fun x hx => h x (List.mem_cons_of_mem l hx)]
  rw [chunkLines, hfold]
  simp

/-! ## Filesystem lemmas -/

lemma delIf_eval (fs : FS) (p q : String) :
    (if fs.exists? p then fs.del p else fs) q = if q = p then none else fs q := by
  by_cases hq : q = p
  · rw [hq]
    by_cases h : fs.exists? p = true
    · simp [h, FS.del]
    · rw [if_neg h, if_pos rfl]
      simp only [FS.exists?] at h
      exact Option.not_isSome_iff_eq_none.mp h
  · by_cases h : fs.exists? p = true <;> simp [h, FS.del, hq]

lemma srtCleanup_eval (fs : FS) (tw ts q : String) :
    srtCleanup fs tw ts q =
      if q = ts then none else if q = tw then none else fs q := by
  simp only [srtCleanup]
  rw [delIf_eval, delIf_eval]

lemma srtCleanup_tw (fs : FS) (tw ts : String) : srtCleanup fs tw ts tw = none := by
  rw [srtCleanup_eval]
  by_cases h : tw = ts <;> simp [h]

lemma srtCleanup_ts (fs : FS) (tw ts : String) : srtCleanup fs tw ts ts = none := by
  rw [srtCleanup_eval]
  simp

lemma append_ne_of_ne (a : String) {b c : String} (h : b ≠ c) :
    a ++ b ≠ a ++ c := by
  intro he
  exact h (String.ext (List.append_cancel_left (by
    rw [← String.data_append, ← String.data_append, he])))

/-! ## Transcription job: skip path and cleanup -/

lemma doSrt_skip (env : SrtEnv) (fs : FS) (p : String)
    (h : fs.exists? (srtPath p) = true) : doSrt env fs p = (fs, []) := by
  simp [doSrt, h]

lemma doSrt_temps_absent (env : SrtEnv) (fs : FS) (p : String)
    (h1 : fs (tempWavPath p) = none) (h2 : fs (tempSrtPath p) = none) :
    (doSrt env fs p).1 (tempWavPath p) = none ∧
      (doSrt env fs p).1 (tempSrtPath p) = none := by
  by_cases hs : fs.exists? (srtPath p) = true
  · rw [doSrt_skip env fs p hs]
    exact ⟨h1, h2⟩
  · simp only [doSrt, if_neg hs]
    exact ⟨srtCleanup_tw _ _ _, srtCleanup_ts _ _ _⟩

lemma v2sRun_temp_absent (env : V2SEnv) (fs : FS) (input : String)
    (hc : env.ctorRaises = false)
    (h0 : fs (stemOf input ++ "_temp_audio.wav") = none) :
    (v2sRun env fs input).1 (stemOf input ++ "_temp_audio.wav") = none := by
  simp only [v2sRun, v2sTranscribe, hc, Bool.false_eq_true, if_false]
  by_cases hv : toLowerStr (extOf input) ∈ videoExts
  · rw [if_pos hv]
    by_cases he : env.extractOk = true
    · rw [if_pos he]
      by_cases hi : env.innerRaises = true <;> simp [hi, FS.del]
    · rw [if_neg he]
      exact h0
  · rw [if_neg hv]
    by_cases ha : toLowerStr (extOf input) ∈ audioExts
    · rw [if_pos ha]
      by_cases hi : env.innerRaises = true
      · simp [hi]
        exact h0
      · simp only [hi, Bool.false_eq_true, if_false, FS.set]
        rw [if_neg (append_ne_of_ne (stemOf input) (by decide))]
        exact h0
    · rw [if_neg ha]
      exact h0

/-! ## Batch loop lemmas -/

lemma batchGo_nil (env : BatchEnv) (total i : Nat) (fs : FS) :
    batchGo env total i fs [] = (fs, []) := rfl

lemma batchGo_cons_raise (env : BatchEnv) (total i : Nat) (fs : FS)
    (f : String) (rest : List String) (h : env.jobRaises f = true) :
    batchGo env total i fs (f :: rest) =
      ((batchGo env total (i + 1) fs rest).1,
        .progressStart (i + 1) total f :: .errorCaught f ::
          (batchGo env total (i + 1) fs rest).2) := by
  simp [batchGo, h]

lemma batchGo_cons_ok (env : BatchEnv) (total i : Nat) (fs : FS)
    (f : String) (rest : List String) (h : env.jobRaises f = false) :
    batchGo env total i fs (f :: rest) =
      ((batchGo env total (i + 1) (doSrt (env.srtEnv f) fs f).1 rest).1,
        .progressStart (i + 1) total f :: (doSrt (env.srtEnv f) fs f).2 ++
          .progressEnd (i + 1) total f ::
            (batchGo env total (i + 1) (doSrt (env.srtEnv f) fs f).1 rest).2) := by
  simp [batchGo, h]

lemma batchGo_all_skipped (env : BatchEnv) (files : List String) :
    ∀ (total i : Nat) (fs : FS),
      (∀ f ∈ files, fs.exists? (srtPath f) = true) →
      (batchGo env total i fs files).1 = fs ∧
        ∀ e ∈ (batchGo env total i fs files).2,
          e.isTranscribe = false ∧ e.isExtract = false := by
  induction files with
  | nil =>
    intro total i fs _
    exact ⟨rfl, by simp [batchGo_nil]⟩
  | cons f rest ih =>
    intro total i fs h
    obtain ⟨ih1, ih2⟩ := ih total (i + 1) fs
      (fun x hx => h x (List.mem_cons_of_mem f hx))
    by_cases hr : env.jobRaises f = true
    · rw [batchGo_cons_raise env total i fs f rest hr]
      refine ⟨ih1, ?_⟩
      intro e he
      rcases List.mem_cons.mp he with rfl | he
      · exact ⟨rfl, rfl⟩
      rcases List.mem_cons.mp he with rfl | he
      · exact ⟨rfl, rfl⟩
      · exact ih2 e he
    · rw [batchGo_cons_ok env total i fs f rest (by simpa using hr),
        doSrt_skip _ fs f (h f (List.mem_cons_self f rest))]
      refine ⟨ih1, ?_⟩
      intro e he
      simp only [List.nil_append] at he
      rcases List.mem_cons.mp he with rfl | he
      · exact ⟨rfl, rfl⟩
      rcases List.mem_cons.mp he with rfl | he
      · exact ⟨rfl, rfl⟩
      · exact ih2 e he

lemma batchGo_progressStart (files : List String) :
    ∀ (env : BatchEnv) (total i : Nat) (fs : FS) (j : Nat)
      (hj : j < files.length),
      Ev.progressStart (i + j + 1) total (files.get ⟨j, hj⟩) ∈
        (batchGo env total i fs files).2 := by
  induction files with
  | nil =>
    intro env total i fs j hj
    exact absurd hj (by simp)
  | cons f rest ih =>
    intro env total i fs j hj
    cases j with
    | zero =>
      by_cases hr : env.jobRaises f = true
      · rw [batchGo_cons_raise env total i fs f rest hr]
        exact List.mem_cons_self _ _
      · rw [batchGo_cons_ok env total i fs f rest (by simpa using hr)]
        exact List.mem_cons_self _ _
    | succ k =>
      have hk : k < rest.length := by simpa using hj
      have harith : ∀ m : Nat, i + 1 + k + 1 = i + (k + 1) + 1 := fun _ => by omega
      by_cases hr : env.jobRaises f = true
      · have hm := ih env total (i + 1) fs k hk
        rw [harith 0] at hm
        rw [batchGo_cons_raise env total i fs f rest hr]
        exact List.mem_cons_of_mem _ (List.mem_cons_of_mem _ hm)
      · have hm := ih env total (i + 1) (doSrt (env.srtEnv f) fs f).1 k hk
        rw [harith 0] at hm
        rw [batchGo_cons_ok env total i fs f rest (by simpa using hr)]
        exact List.mem_cons_of_mem _
          (List.mem_append.mpr (Or.inr (List.mem_cons_of_mem _ hm)))

lemma batchGo_errorCaught (files : List String) :
    ∀ (env : BatchEnv) (total i : Nat) (fs : FS) (f : String),
      f ∈ files → env.jobRaises f = true →
      Ev.errorCaught f ∈ (batchGo env total i fs files).2 := by
  induction files with
  | nil =>
    intro env total i fs f hf _
    exact absurd hf (List.not_mem_nil f)
  | cons g rest ih =>
    intro env total i fs f hf hr
    rcases List.mem_cons.mp hf with rfl | hf
    · rw [batchGo_cons_raise env total i fs f rest hr]
      exact List.mem_cons_of_mem _ (List.mem_cons_self _ _)
    · by_cases hg : env.jobRaises g = true
      · rw [batchGo_cons_raise env total i fs g rest hg]
        exact List.mem_cons_of_mem _ (List.mem_cons_of_mem _
          (ih env total (i + 1) fs f hf hr))
      · rw [batchGo_cons_ok env total i fs g rest (by simpa using hg)]
        exact List.mem_cons_of_mem _
          (List.mem_append.mpr (Or.inr (List.mem_cons_of_mem _
            (ih env total (i + 1) (doSrt (env.srtEnv g) fs g).1 f hf hr))))

/-! ## Summary job lemmas -/

lemma runSummaries_error (env : SumEnv) (blocks : List String)
    (h : ∃ b ∈ blocks, env.getSummary b = .error ()) :
    (runSummaries env blocks).1 = .error () := by
  induction blocks with
  | nil =>
    obtain ⟨b, hb, _⟩ := h
    exact absurd hb (List.not_mem_nil b)
  | cons b rest ih =>
    obtain ⟨b', hb', he'⟩ := h
    rcases List.mem_cons.mp hb' with rfl | hb'
    · rw [runSummaries, he']
    · cases hg : env.getSummary b with
      | error e =>
        rw [runSummaries, hg]
      | ok s =>
        rw [runSummaries, hg]
        simp only
        rw [ih ⟨b', hb', he'⟩]
        rfl

/-! ## Evaluating the chunker on the oversized-block input -/

lemma dropWhile_replicate (n : Nat) (c : Char) (h : isPySpace c = false) :
    List.dropWhile isPySpace (List.replicate n c) = List.replicate n c := by
  cases n with
  | zero => rfl
  | succ m => rw [List.replicate_succ, List.dropWhile_cons, if_neg (by simp [h])]

lemma stripChars_replicate (n : Nat) (c : Char) (h : isPySpace c = false) :
    stripChars (List.replicate n c) = List.replicate n c := by
  rw [stripChars, dropWhile_replicate n c h, List.reverse_replicate,
    dropWhile_replicate n c h, List.reverse_replicate]

lemma bigLine_data : bigLine.data = List.replicate 32768 'a' := rfl

lemma stripStr_bigLine : stripStr bigLine = bigLine := by
  apply String.ext
  rw [stripStr_data, bigLine_data, stripChars_replicate 32768 'a' (by decide)]

lemma utf8Len_bigLine : utf8Len bigLine = 32768 := by
  rw [utf8Len, bigLine_data, List.map_replicate, List.sum_replicate,
    (by decide : Char.utf8Size 'a' = 1), smul_eq_mul, mul_one]

lemma bigLine_not_filtered :
    ¬((bigLine.data.all fun c => filterChars.contains c) = true) := by
  intro hall
  rw [bigLine_data] at hall
  have h := List.all_eq_true.mp hall 'a'
    (List.mem_replicate.mpr ⟨by decide, rfl⟩)
  exact absurd h (by decide)

lemma bigLine_ne_nl : ∀ c ∈ bigLine.data, ¬c = '\n' := by
  intro c hc
  rw [bigLine_data] at hc
  rw [(List.mem_replicate.mp hc).2]
  decide

lemma splitNlAux_newline (l cur : List Char) :
    splitNlAux ('\n' :: l) cur = cur.reverse :: splitNlAux l [] := by
  rw [splitNlAux, if_pos rfl]

lemma splitNlAux_skip (pre : List Char) (hpre : ∀ c ∈ pre, ¬c = '\n') :
    ∀ (l cur : List Char),
      splitNlAux (pre ++ l) cur = splitNlAux l (pre.reverse ++ cur) := by
  induction pre with
  | nil => intro l cur; simp
  | cons c pre' ih =>
    intro l cur
    rw [List.cons_append, splitNlAux,
      if_neg (hpre c (List.mem_cons_self c pre')),
      ih (fun x hx => hpre x (List.mem_cons_of_mem c hx)) l (c :: cur)]
    simp [List.reverse_cons, List.append_assoc]

lemma pySplitNl_cc :
    pySplitNl chunkCounterexampleContent = [bigLine, bigLine, "x"] := by
  have h1 : ("\n" : String).data = ['\n'] := rfl
  have h2 : ("x" : String).data = ['x'] := rfl
  have hdata : chunkCounterexampleContent.data =
      bigLine.data ++ ('\n' :: (bigLine.data ++ ('\n' :: ['x']))) := by
    simp [chunkCounterexampleContent, String.data_append, h1, h2,
      List.append_assoc]
  have hx : splitNlAux ['x'] [] = [['x']] := rfl
  rw [pySplitNl, hdata, splitNlAux_skip bigLine.data bigLine_ne_nl,
    splitNlAux_newline, splitNlAux_skip bigLine.data bigLine_ne_nl,
    splitNlAux_newline, hx]
  simp [List.append_nil, List.reverse_reverse]

lemma chunkStep_eval (st : ChunkState) (l : String)
    (hf : ((stripStr l).data.all fun c => filterChars.contains c) = false) :
    chunkStep st l =
      if st.size + utf8Len (stripStr l) > MAX_BLOCK_SIZE ∧ st.current ≠ []
      then ⟨st.blocks ++ [st.current], [stripStr l], utf8Len (stripStr l)⟩
      else ⟨st.blocks, st.current ++ [stripStr l],
        st.size + utf8Len (stripStr l)⟩ := by
  rw [chunkStep, if_neg (by rw [hf]; exact Bool.false_ne_true)]

lemma bigLine_filtered_false :
    (bigLine.data.all fun c => filterChars.contains c) = false :=
  Bool.eq_false_iff.mpr bigLine_not_filtered

lemma chunkLines_cc :
    chunkLines [bigLine, bigLine, "x"] = [[bigLine, bigLine], ["x"]] := by
  have hfb : ((stripStr bigLine).data.all fun c => filterChars.contains c) = false := by
    rw [stripStr_bigLine]; exact bigLine_filtered_false
  have h1 : chunkStep ⟨[], [], 0⟩ bigLine = ⟨[], [bigLine], 32768⟩ := by
    rw [chunkStep_eval _ _ hfb, stripStr_bigLine, utf8Len_bigLine,
      if_neg (by decide)]
    rfl
  have h2 : chunkStep ⟨[], [bigLine], 32768⟩ bigLine =
      ⟨[], [bigLine, bigLine], 65536⟩ := by
    rw [chunkStep_eval _ _ hfb, stripStr_bigLine, utf8Len_bigLine,
      if_neg (by decide)]
    rfl
  have h3 : chunkStep ⟨[], [bigLine, bigLine], 65536⟩ "x" =
      ⟨[[bigLine, bigLine]], ["x"], 1⟩ := by
    rw [chunkStep_eval _ _ (by decide), (by decide : stripStr "x" = "x"),
      (by decide : utf8Len "x" = 1), if_pos ⟨by decide, by decide⟩]
    rfl
  rw [chunkLines, List.foldl_cons, h1, List.foldl_cons, h2, List.foldl_cons,
    h3, List.foldl_nil, if_pos (by decide)]
  rfl

/-! ## Claim theorems -/

/-- Claim C1, counterexample to the stated form: in the single-file pipeline
of `video2srt.py`, when `ffmpeg` succeeds but the `WhisperModel` constructor
raises, the uncaught exception skips `os.remove(temp_audio_path)` and the
temporary waveform file is still on disk at the end of the job. -/
theorem v2s_temp_wav_persists :
    (v2sRun ⟨true, "RIFF", true, false, []⟩ fsEmpty "a.mp4").1
      "a_temp_audio.wav" = some "RIFF" := by
  decide

/-- Claim C1, amended: `do_srt`'s `finally` removes both temporary files on
every path, so after any batch-mode job neither temporary exists (provided
no stale temporary predates the run, which matters only on the skip path);
in `video2srt.py` there is no temporary subtitle file at all, and the
temporary waveform is absent after the run provided the transcriber model
constructor did not raise (if it raises, the temporary persists, per the
counterexample). -/
theorem cleanup_invariant_amended :
    (∀ (env : SrtEnv) (fs : FS) (p : String),
      fs (tempWavPath p) = none → fs (tempSrtPath p) = none →
      (doSrt env fs p).1 (tempWavPath p) = none ∧
        (doSrt env fs p).1 (tempSrtPath p) = none) ∧
    (∀ (env : V2SEnv) (fs : FS) (input : String),
      env.ctorRaises = false →
      fs (stemOf input ++ "_temp_audio.wav") = none →
      (v2sRun env fs input).1 (stemOf input ++ "_temp_audio.wav") = none) :=
  ⟨doSrt_temps_absent, v2sRun_temp_absent⟩

/-- Witness for the amended C1 theorem at concrete inputs: a batch job whose
transcription raises, and a single-file job whose transcription fails inside
`transcribe_audio`'s `try`. -/
theorem cleanup_invariant_amended_witness :
    ((doSrt ⟨true, "W", true, [], false, ""⟩ fsEmpty "b.mp4").1
        (tempWavPath "b.mp4") = none ∧
      (doSrt ⟨true, "W", true, [], false, ""⟩ fsEmpty "b.mp4").1
        (tempSrtPath "b.mp4") = none) ∧
    (v2sRun ⟨true, "W", false, true, []⟩ fsEmpty "b.mp4").1
      (stemOf "b.mp4" ++ "_temp_audio.wav") = none :=
  ⟨cleanup_invariant_amended.1 ⟨true, "W", true, [], false, ""⟩ fsEmpty
      "b.mp4" rfl rfl,
    cleanup_invariant_amended.2 ⟨true, "W", false, true, []⟩ fsEmpty
      "b.mp4" rfl rfl⟩

/-- Claim C2: if the final subtitle exists, `do_srt` returns at once: no
collaborator call is made and the filesystem is returned unchanged; hence a
batch over files whose subtitles all exist leaves the filesystem identical
and its trace holds no transcription (or extraction) call. -/
theorem srt_job_idempotent :
    (∀ (env : SrtEnv) (fs : FS) (p : String),
      fs.exists? (srtPath p) = true → doSrt env fs p = (fs, [])) ∧
    (∀ (env : BatchEnv) (fs : FS) (files : List String),
      (∀ f ∈ files, fs.exists? (srtPath f) = true) →
      (batchRun env fs files).1 = fs ∧
        ∀ e ∈ (batchRun env fs files).2,
          e.isTranscribe = false ∧ e.isExtract = false) :=
  ⟨doSrt_skip,
    fun env fs files h => batchGo_all_skipped env files files.length 0 fs h⟩

/-- Witness for C2 at a concrete filesystem in which `d/v.srt` exists. -/
theorem srt_job_idempotent_witness :
    doSrt ⟨true, "W", false, [], false, ""⟩ (fsEmpty.set "d/v.srt" "1")
        "d/v.mp4" = (fsEmpty.set "d/v.srt" "1", []) ∧
      (batchRun ⟨fun _ => ⟨true, "W", false, [], false, ""⟩, fun _ => false⟩
          (fsEmpty.set "d/v.srt" "1") ["d/v.mp4"]).1 =
        fsEmpty.set "d/v.srt" "1" :=
  ⟨srt_job_idempotent.1 ⟨true, "W", false, [], false, ""⟩
      (fsEmpty.set "d/v.srt" "1") "d/v.mp4" (by decide),
    (srt_job_idempotent.2 ⟨fun _ => ⟨true, "W", false, [], false, ""⟩,
        fun _ => false⟩ (fsEmpty.set "d/v.srt" "1") ["d/v.mp4"]
      (by decide)).1⟩

/-- Claim C3: `src/main.py`'s `format_time` renders `3725.250` as
`01:02:05,250` and `0.0` as `00:00:00,000` as the spec states, but
`src/video2srt.py`'s `format_time` renders `3725.250` as `00:00:05,250`:
it reassigns `seconds = int(seconds) % 60` before computing minutes and
hours from the reassigned value, so both are always zero. -/
theorem format_time_bug :
    formatTime (3725.25 : ℚ) = "01:02:05,250" ∧
    formatTime (0 : ℚ) = "00:00:00,000" ∧
    formatTimeV2S (3725.25 : ℚ) = "00:00:05,250" ∧
    formatTimeV2S (0 : ℚ) = "00:00:00,000" := by
  refine ⟨?_, ?_, ?_, ?_⟩
  · rw [formatTime, pyTrunc_3725_25, pyTrunc_3725250]
    decide
  · rw [formatTime, pyTrunc_zero, pyTrunc_zero_mul]
    decide
  · rw [formatTimeV2S, pyTrunc_3725_25, pyTrunc_3725250,
      (by decide : Int.fmod 3725 60 = 5), pyTrunc_five_div60,
      pyTrunc_five_div3600]
    decide
  · rw [formatTimeV2S, pyTrunc_zero, pyTrunc_zero_mul,
      (by decide : Int.fmod 0 60 = 0), pyTrunc_zero_div60,
      pyTrunc_zero_div3600]
    decide

/-- Claim C4, counterexample to the stated form: on an input of two
32768-byte lines followed by `"x"`, the chunker emits a first block whose
joined text is 65537 UTF-8 bytes (the `'\n'` separator is not counted by
`current_size`), and that block is not a single oversized line. -/
theorem chunk_block_exceeds_64k :
    ¬(∀ B ∈ blocksOf chunkCounterexampleContent,
        utf8Len B ≤ MAX_BLOCK_SIZE ∨
          ('\n' ∉ B.data ∧ MAX_BLOCK_SIZE < utf8Len B)) := by
  intro hall
  have hblocks : blocksOf chunkCounterexampleContent =
      [bigLine ++ "\n" ++ bigLine, "x"] := by
    rw [blocksOf, pySplitNl_cc, chunkLines_cc]
    rfl
  have hmem : (bigLine ++ "\n" ++ bigLine) ∈ blocksOf chunkCounterexampleContent := by
    rw [hblocks]
    exact List.mem_cons_self _ _
  have hsize : utf8Len (bigLine ++ "\n" ++ bigLine) = 65537 := by
    rw [utf8Len_append, utf8Len_append, utf8Len_bigLine,
      (by decide : utf8Len "\n" = 1)]
  have hnl : '\n' ∈ (bigLine ++ "\n" ++ bigLine).data := by
    rw [String.data_append, String.data_append]
    exact List.mem_append.mpr (Or.inl (List.mem_append.mpr (Or.inr (by decide))))
  rcases hall _ hmem with h | ⟨hno, _⟩
  · rw [hsize] at h
    exact absurd h (by decide)
  · exact hno hnl

/-- Claim C4, amended: for every block, the sum of the UTF-8 sizes of its
lines (the quantity the loop bounds) is at most 65536 — so the joined block
is at most 65536 plus one byte per newline separator — except a block that
is one single line exceeding 65536 bytes, which is kept unsplit. -/
theorem chunk_size_bound_amended :
    ∀ (content : String) (B : List String),
      B ∈ chunkLines (pySplitNl content) →
      (sumBytes B ≤ MAX_BLOCK_SIZE ∧
        utf8Len (joinLines B) ≤ MAX_BLOCK_SIZE + (B.length - 1)) ∨
      ∃ l, B = [l] ∧ utf8Len l > MAX_BLOCK_SIZE := by
  intro content B hB
  rcases chunkLines_goodBlock _ B hB with h | h
  · exact Or.inl ⟨h, le_trans (utf8Len_joinLines B) (by omega)⟩
  · exact Or.inr h

/-- Witness for the amended C4 theorem on a small two-line input. -/
theorem chunk_size_bound_amended_witness :
    (sumBytes ["hello", "world"] ≤ MAX_BLOCK_SIZE ∧
      utf8Len (joinLines ["hello", "world"]) ≤
        MAX_BLOCK_SIZE + (["hello", "world"].length - 1)) ∨
    ∃ l, ["hello", "world"] = [l] ∧ utf8Len l > MAX_BLOCK_SIZE :=
  chunk_size_bound_amended "hello\nworld" ["hello", "world"] (by decide)

/-- Claim C5: joining the lines of all chunker blocks in order reproduces
exactly the filtered transcript — the stripped text of every input line
surviving the character-set filter, in original order, with nothing
dropped, duplicated, or reordered. -/
theorem chunker_round_trip :
    ∀ content : String,
      (chunkLines (pySplitNl content)).flatten =
        filteredLines (pySplitNl content) :=
  fun _ => chunkLines_flatten _

/-- Claim C6: every file of the snapshot is attempted (its progress-start
line is logged at its 1-based index), a file whose processing raises is
logged as caught with its identity and the batch continues; in the 3-file
scenario where file 2's extraction fails, files 1 and 3 still get final
subtitles, file 2 does not, the extraction error is logged, and progress is
reported before and after each of the three files. -/
theorem batch_resilience :
    (∀ (env : BatchEnv) (total i : Nat) (fs : FS) (files : List String)
        (j : Nat) (hj : j < files.length),
        Ev.progressStart (i + j + 1) total (files.get ⟨j, hj⟩) ∈
          (batchGo env total i fs files).2) ∧
    (∀ (env : BatchEnv) (fs : FS) (files : List String) (f : String),
        f ∈ files → env.jobRaises f = true →
        Ev.errorCaught f ∈ (batchRun env fs files).2) ∧
    (((batchRun scnBatchEnv fsEmpty scnFiles).1 "d/a.srt").isSome = true ∧
      (batchRun scnBatchEnv fsEmpty scnFiles).1 "d/b.srt" = none ∧
      ((batchRun scnBatchEnv fsEmpty scnFiles).1 "d/c.srt").isSome = true ∧
      Ev.extractErr ∈ (batchRun scnBatchEnv fsEmpty scnFiles).2 ∧
      Ev.progressStart 1 3 "d/a.mp4" ∈ (batchRun scnBatchEnv fsEmpty scnFiles).2 ∧
      Ev.progressEnd 1 3 "d/a.mp4" ∈ (batchRun scnBatchEnv fsEmpty scnFiles).2 ∧
      Ev.progressStart 2 3 "d/b.mp4" ∈ (batchRun scnBatchEnv fsEmpty scnFiles).2 ∧
      Ev.progressEnd 2 3 "d/b.mp4" ∈ (batchRun scnBatchEnv fsEmpty scnFiles).2 ∧
      Ev.progressStart 3 3 "d/c.mp4" ∈ (batchRun scnBatchEnv fsEmpty scnFiles).2 ∧
      Ev.progressEnd 3 3 "d/c.mp4" ∈ (batchRun scnBatchEnv fsEmpty scnFiles).2) :=
  ⟨fun env total i fs files j hj => batchGo_progressStart files env total i fs j hj,
    fun env fs files f hf hr => batchGo_errorCaught files env files.length 0 fs f hf hr,
    by decide⟩

/-- Witness for C6's quantified parts on a one-file batch whose job
raises. -/
theorem batch_resilience_witness :
    Ev.progressStart 1 5 "x.mp4" ∈
      (batchGo ⟨fun _ => ⟨false, "", false, [], false, ""⟩, fun _ => true⟩ 5 0
        fsEmpty ["x.mp4"]).2 ∧
    Ev.errorCaught "x.mp4" ∈
      (batchRun ⟨fun _ => ⟨false, "", false, [], false, ""⟩, fun _ => true⟩
        fsEmpty ["x.mp4"]).2 :=
  ⟨batch_resilience.1 ⟨fun _ => ⟨false, "", false, [], false, ""⟩, fun _ => true⟩
      5 0 fsEmpty ["x.mp4"] 0 (by decide),
    batch_resilience.2.1 ⟨fun _ => ⟨false, "", false, [], false, ""⟩, fun _ => true⟩
      fsEmpty ["x.mp4"] "x.mp4" (by decide) rfl⟩

/-- Claim C7, counterexample to the stated form: with no filesystem entries
at all the root `/data` does not exist, yet the scan yields `Except.ok []`
and not an error — `glob.glob` has no failing path, so no `ScanError`
can occur. -/
theorem scan_missing_root_not_error :
    scanStep [] "/data" = Except.ok ([] : List String) ∧
      scanStep [] "/data" ≠ Except.error () :=
  ⟨rfl, fun h => Except.noConfusion h⟩

/-- Claim C7, amended: the scanner never fails — for every filesystem and
root it returns `Except.ok` of the matching files (paths under the root
ending in `.mp4`), and in particular both a missing root and an empty
filesystem yield the empty sequence. -/
theorem scanner_never_fails :
    ∀ (existing : List String) (root : String),
      scanStep existing root = .ok (scanMp4 existing root) ∧
      scanMp4 [] root = [] ∧
      ∀ f ∈ scanMp4 existing root,
        (root ++ "/").data.isPrefixOf f.data = true ∧
          (".mp4" : String).data.isSuffixOf f.data = true := by
  intro existing root
  refine ⟨rfl, rfl, ?_⟩
  intro f hf
  have h := (List.mem_filter.mp hf).2
  rw [Bool.and_eq_true] at h
  exact h

/-- Witness for the amended C7 theorem on a two-file filesystem. -/
theorem scanner_never_fails_witness :
    ("/r" ++ "/").data.isPrefixOf ("/r/a.mp4" : String).data = true ∧
      (".mp4" : String).data.isSuffixOf ("/r/a.mp4" : String).data = true :=
  (scanner_never_fails ["/r/a.mp4", "/r/b.txt"] "/r").2.2 "/r/a.mp4" (by decide)

/-- Claim C8: if reading the subtitle raises, or any `get_summary` call on a
block raises, `do_summary` catches the exception before `open(summary_path)`
is ever reached, so the filesystem is returned entirely unchanged — in
particular no partial or half-joined summary file exists. -/
theorem summary_exception_leaves_fs_unchanged :
    ∀ (env : SumEnv) (fs : FS) (p content : String),
      fs (srtPath p) = some content →
      (env.readRaises = true ∨
        ∃ b ∈ blocksOf content, env.getSummary b = .error ()) →
      (doSummary env fs p).1 = fs := by
  intro env fs p content hsrt hexc
  simp only [doSummary, hsrt]
  by_cases hsum : fs.exists? (summaryPath p) = true
  · rw [if_pos hsum]
  · rw [if_neg hsum]
    by_cases hrd : env.readRaises = true
    · rw [if_pos hrd]
    · rw [if_neg hrd]
      rcases hexc with h | h
      · exact absurd h hrd
      · rw [runSummaries_error env _ h]

/-- Witness for C8: a concrete job whose subtitle read raises. -/
theorem summary_exception_leaves_fs_unchanged_witness :
    (doSummary ⟨true, fun _ => .ok "s"⟩ (fsEmpty.set "v.srt" "hello")
        "v.mp4").1 = fsEmpty.set "v.srt" "hello" :=
  summary_exception_leaves_fs_unchanged ⟨true, fun _ => .ok "s"⟩
    (fsEmpty.set "v.srt" "hello") "v.mp4" "hello" (by decide) (Or.inl rfl)

/-- Claim C9, counterexample to the "no-op" part: on a subtitle whose lines
all consist of filter characters, `do_summary` is not a no-op — it writes an
empty summary file at the final summary path. -/
theorem summary_no_blocks_writes_empty_file :
    (fsEmpty.set "v.srt" "1\n00:00:00,000 --> 00:00:01,000\n")
        "v_summary.txt" = none ∧
      (doSummary ⟨false, fun _ => .ok "s"⟩
          (fsEmpty.set "v.srt" "1\n00:00:00,000 --> 00:00:01,000\n")
          "v.mp4").1 "v_summary.txt" = some "" := by
  constructor
  · decide
  · decide

/-- Claim C9, amended: on input whose every line consists only of filter
characters the chunker yields no blocks, and the summary job then makes
zero summarizer calls and completes without error — but rather than doing
nothing it writes an empty summary file at the final summary path. -/
theorem no_qualifying_lines_amended :
    ∀ (content : String) (env : SumEnv) (fs : FS) (p : String),
      (∀ l ∈ pySplitNl content, ∀ c ∈ l.data, c ∈ filterChars) →
      chunkLines (pySplitNl content) = [] ∧
      (fs (srtPath p) = some content →
        fs.exists? (summaryPath p) = false →
        env.readRaises = false →
        doSummary env fs p = (fs.set (summaryPath p) "", [])) := by
  intro content env fs p hall
  have hnil := chunkLines_nil_of_all_filtered _ hall
  refine ⟨hnil, ?_⟩
  intro hsrt hsum hrd
  simp only [doSummary, hsrt]
  rw [if_neg (by simp [hsum]), if_neg (by simp [hrd]), blocksOf, hnil]
  rfl

/-- Witness for the amended C9 theorem on the subtitle text `"1\n2\n"`. -/
theorem no_qualifying_lines_amended_witness :
    doSummary ⟨false, fun _ => .ok ""⟩ (fsEmpty.set "w.srt" "1\n2\n")
        "w.mp4" =
      ((fsEmpty.set "w.srt" "1\n2\n").set (summaryPath "w.mp4") "", []) :=
  (no_qualifying_lines_amended "1\n2\n" ⟨false, fun _ => .ok ""⟩
      (fsEmpty.set "w.srt" "1\n2\n") "w.mp4" (by decide)).2
    (by decide) (by decide) rfl

/-- Claim C10: every line placed into a block is non-empty and is fixed by
stripping (no leading or trailing whitespace), and it is the stripped text
of some input line — blocks hold stripped texts, not the original lines. -/
theorem block_lines_stripped_nonempty :
    ∀ (content : String) (l : String),
      l ∈ (chunkLines (pySplitNl content)).flatten →
      l ≠ "" ∧ stripStr l = l ∧ ∃ l0 ∈ pySplitNl content, l = stripStr l0 := by
  intro content l hl
  rw [chunkLines_flatten] at hl
  obtain ⟨a, ha, hfa⟩ := List.mem_filterMap.mp hl
  simp only at hfa
  by_cases hc : ((stripStr a).data.all fun c => filterChars.contains c) = true
  · rw [if_pos hc] at hfa
    exact absurd hfa (by simp)
  · rw [if_neg hc] at hfa
    obtain rfl := Option.some_inj.mp hfa
    refine ⟨?_, stripStr_idem a, a, ha, rfl⟩
    intro h0
    exact hc (by rw [h0]; rfl)

/-- Witness for C10 on an input with surrounding whitespace and an index
line. -/
theorem block_lines_stripped_nonempty_witness :
    "hi" ≠ "" ∧ stripStr "hi" = "hi" ∧
      ∃ l0 ∈ pySplitNl "  hi \n1", "hi" = stripStr l0 :=
  block_lines_stripped_nonempty "  hi \n1" "hi" (by decide)

end MissAV
